import Mathlib

/-!
Shallow embedding of the guided-query construction and result-normalization
core of the `rynamo` terminal client (Rust sources under `src/`), together
with theorems settling the specification claims about it.

The embedded pieces are:
* `Json` — the untyped JSON tree (`serde_json::Value`); numbers are modelled
  as integers (`Int`), which covers every numeric behaviour the claims touch
  (`@odata.count` extraction via `as_u64`, decimal rendering).
* `QueryDefinition.build_url` — `src/models/query.rs`.
* `QueryResult.from_json` and `format_json_value` — `src/models/query.rs`.
* `FilterOp` with `to_odata` / `next` / `prev` / `needs_value` — `src/ui/app.rs`.
* The URL-assembly and result-update logic of `App::execute_guided_query`
  and `App::load_next_page` — `src/ui/app.rs`; the HTTP collaborator is a
  parameter (`Except String Json`), and `raw_json` stores the payload itself
  rather than its pretty-printed text.
-/

/-- Untyped JSON values, mirroring `serde_json::Value`.  Objects are
association lists; `serde_json` keeps keys unique and sorted, which the
embedding does not need to assume because the code re-sorts what it uses. -/
inductive Json where
  | null : Json
  | bool (b : Bool) : Json
  | num (n : Int) : Json
  | str (s : String) : Json
  | arr (xs : List Json) : Json
  | obj (kvs : List (String × Json)) : Json
deriving Repr

/-- Field access on a JSON object (`serde_json::Value::get` with a string
key): `None` on non-objects and absent keys. -/
def Json.get (j : Json) (key : String) : Option Json :=
  match j with
  | .obj kvs => (kvs.find? (fun kv => kv.1 = key)).map (fun kv => kv.2)
  | _ => none

/-- `serde_json::Number::as_u64` composed with the `as usize` cast, for the
integer-valued numbers the embedding models: defined exactly on
non-negative integers. -/
def asU64 (n : Int) : Option Nat :=
  if 0 ≤ n then some n.toNat else none

/-- Rust's `Vec::join` / slice `join` on strings. -/
def joinSep (sep : String) : List String → String
  | [] => ""
  | [s] => s
  | s :: rest => s ++ sep ++ joinSep sep rest

/-- Lexicographic ≤ on code-point sequences: the order `Ord for String`
induces in Rust (byte-wise UTF-8 comparison, which is order-isomorphic to
code-point comparison). -/
def strLeChars : List Char → List Char → Bool
  | [], _ => true
  | _ :: _, [] => false
  | a :: as, b :: bs =>
    if a.toNat < b.toNat then true
    else if b.toNat < a.toNat then false
    else strLeChars as bs

/-- Lexicographic ≤ on strings. -/
def strLe (s t : String) : Bool := strLeChars s.data t.data

/-- `str::starts_with` on the character data. -/
def strStartsWith (s p : String) : Bool := p.data.isPrefixOf s.data

/-- `str::ends_with` on the character data. -/
def strEndsWith (s p : String) : Bool := p.data.isSuffixOf s.data

/-- Insert into a sorted list of strings, keeping it sorted. -/
def insertSorted (s : String) : List String → List String
  | [] => [s]
  | t :: ts => if strLe s t then s :: t :: ts else t :: insertSorted s ts

/-- `Vec::sort` on a vector of strings (lexicographic order; strings form a
total order, so any correct sort produces the same list). -/
def sortStrings : List String → List String
  | [] => []
  | s :: ss => insertSorted s (sortStrings ss)

/-- Metadata for a lookup field (`LookupInfo`, src/models/query.rs). -/
structure LookupInfo where
  id : String
  logical_name : String
  display_name : Option String
deriving Repr, DecidableEq

/-- A query definition (`QueryDefinition`, src/models/query.rs). -/
structure QueryDefinition where
  entity_name : String
  entity_set_name : String
  select : List String
  filter : String
  order_by : String
  top : Option Nat
  skip : Option Nat
deriving Repr, DecidableEq

/-- The clause list built by `QueryDefinition::build_url`
(src/models/query.rs:40-60): one clause per non-empty/non-default field,
pushed in the order select, filter, orderby, top, skip. -/
def QueryDefinition.urlParts (q : QueryDefinition) : List String :=
  (if q.select.isEmpty then [] else ["$select=" ++ joinSep "," q.select]) ++
  (if q.filter = "" then [] else ["$filter=" ++ q.filter]) ++
  (if q.order_by = "" then [] else ["$orderby=" ++ q.order_by]) ++
  (match q.top with
   | some top => ["$top=" ++ toString top]
   | none => []) ++
  (match q.skip with
   | some skip => ["$skip=" ++ toString skip]
   | none => [])

/-- `QueryDefinition::build_url` (src/models/query.rs:39-67): bare
entity-set name when no clause is emitted, otherwise the clauses joined
with `&` after a `?`. -/
def QueryDefinition.build_url (q : QueryDefinition) : String :=
  if q.urlParts.isEmpty then q.entity_set_name
  else q.entity_set_name ++ "?" ++ joinSep "&" q.urlParts

/-- Query result (`QueryResult`, src/models/query.rs).  The Rust `lookups`
field is a `HashMap<(usize, usize), LookupInfo>`; it is modelled as its
entry list (each key is inserted at most once during normalization), read
through `lookupsFind`.  `raw_json` stores the payload value itself where
the Rust code stores its pretty-printed text. -/
structure QueryResult where
  columns : List String
  rows : List (List String)
  lookups : List ((Nat × Nat) × LookupInfo)
  count : Option Nat
  next_link : Option String
  error : Option String
  raw_json : Option Json
deriving Repr

/-- `QueryResult::default()`: every field empty/`None`. -/
def QueryResult.empty : QueryResult :=
  { columns := [], rows := [], lookups := [], count := none,
    next_link := none, error := none, raw_json := none }

/-- `HashMap::get` on the modelled lookups map. -/
def lookupsFind (lks : List ((Nat × Nat) × LookupInfo)) (k : Nat × Nat) :
    Option LookupInfo :=
  (lks.find? (fun e => e.1 = k)).map (fun e => e.2)

/-- The formatted-value annotation suffix used by the normalizer. -/
def formattedValueSuffix : String := "@OData.Community.Display.V1.FormattedValue"

/-- The lookup-logical-name annotation suffix used by the normalizer. -/
def lookupLogicalSuffix : String := "@Microsoft.Dynamics.CRM.lookuplogicalname"

/-- `format_json_value` (src/models/query.rs): render a raw JSON value for
display by type. -/
def format_json_value : Json → String
  | .null => "-"
  | .bool b => if b then "true" else "false"
  | .num n => toString n
  | .str s => s
  | .arr xs => "[" ++ toString xs.length ++ " items]"
  | .obj _ => "{...}"

/-- The display value of one cell: the loop body at
src/models/query.rs:137-145 — formatted-value annotation first (when it is
a string), else the raw value rendered by type, else `"-"` when the column
is absent from the record. -/
def displayValue (o : List (String × Json)) (col : String) : String :=
  match (Json.obj o).get (col ++ formattedValueSuffix) with
  | some (.str s) => s
  | _ =>
    match (Json.obj o).get col with
    | some v => format_json_value v
    | _ => "-"

/-- The lookup-detection branch at src/models/query.rs:148-171, for one
cell.  The `else` branch for `_..._value`-named columns re-checks the very
same annotation key that just failed, so it never produces an entry; it is
kept to mirror the source. -/
def cellLookup (o : List (String × Json)) (col : String)
    (display_val : String) : Option LookupInfo :=
  match (Json.obj o).get (col ++ lookupLogicalSuffix) with
  | some (.str logical_name) =>
    match (Json.obj o).get col with
    | some (.str id) => some ⟨id, logical_name, some display_val⟩
    | _ => none
  | _ =>
    if strStartsWith col "_" && strEndsWith col "_value" then
      match (Json.obj o).get (col ++ lookupLogicalSuffix) with
      | some (.str logical_name) =>
        match (Json.obj o).get col with
        | some (.str id) => some ⟨id, logical_name, some display_val⟩
        | _ => none
      | _ => none
    else none

/-- The inner column loop of the row-extraction pass: lookup entries
contributed by one record, `col_idx` running from the given start index
(`for (col_idx, col) in result.columns.iter().enumerate()`). -/
def rowLookups (o : List (String × Json)) (row_idx : Nat) :
    Nat → List String → List ((Nat × Nat) × LookupInfo)
  | _, [] => []
  | col_idx, col :: rest =>
    match cellLookup o col (displayValue o col) with
    | some li => ((row_idx, col_idx), li) :: rowLookups o row_idx (col_idx + 1) rest
    | none => rowLookups o row_idx (col_idx + 1) rest

/-- The outer record loop of the row-extraction pass
(src/models/query.rs:133-175): `row_idx` enumerates all records, but only
object records push a row (and contribute lookups). -/
def processRecords (cols : List String) :
    Nat → List Json → List (List String) × List ((Nat × Nat) × LookupInfo)
  | _, [] => ([], [])
  | row_idx, record :: rest =>
    let tail := processRecords cols (row_idx + 1) rest
    match record with
    | .obj o => ((cols.map (displayValue o)) :: tail.1,
                 rowLookups o row_idx 0 cols ++ tail.2)
    | _ => tail

/-- Column discovery (src/models/query.rs:120-130): the first record's
keys, minus those that begin with the `@` annotation prefix, sorted;
empty when the first record is not an object. -/
def discoverColumns (records : List Json) : List String :=
  match records.head? with
  | some (.obj o) =>
    sortStrings ((o.map (fun kv => kv.1)).filter (fun k => !(strStartsWith k "@")))
  | _ => []

/-- `QueryResult::from_json` (src/models/query.rs:100-188). -/
def QueryResult.from_json (json : Json) : QueryResult :=
  match json.get "value" with
  | some (.arr records) =>
    if records.isEmpty then
      -- Still check for next link even if page is empty
      { QueryResult.empty with
        next_link := match json.get "@odata.nextLink" with
                     | some (.str link) => some link
                     | _ => none }
    else
      let cols := discoverColumns records
      let body := processRecords cols 0 records
      { columns := cols, rows := body.1, lookups := body.2,
        count := match json.get "@odata.count" with
                 | some (.num n) => asU64 n
                 | _ => none,
        next_link := match json.get "@odata.nextLink" with
                     | some (.str link) => some link
                     | _ => none,
        error := none, raw_json := none }
  | _ =>
    { QueryResult.empty with
      error := some "Invalid response format: missing 'value' array" }

/-- Filter operator for guided filter building (`FilterOp`, src/ui/app.rs). -/
inductive FilterOp where
  | Equals
  | NotEquals
  | Contains
  | StartsWith
  | EndsWith
  | GreaterThan
  | LessThan
  | IsNull
  | IsNotNull
deriving Repr, DecidableEq

/-- `FilterOp::to_odata` (src/ui/app.rs:218-230): render one predicate. -/
def FilterOp.to_odata (op : FilterOp) (attr value : String) : String :=
  match op with
  | .Equals => attr ++ " eq '" ++ value ++ "'"
  | .NotEquals => attr ++ " ne '" ++ value ++ "'"
  | .Contains => "contains(" ++ attr ++ ", '" ++ value ++ "')"
  | .StartsWith => "startswith(" ++ attr ++ ", '" ++ value ++ "')"
  | .EndsWith => "endswith(" ++ attr ++ ", '" ++ value ++ "')"
  | .GreaterThan => attr ++ " gt " ++ value
  | .LessThan => attr ++ " lt " ++ value
  | .IsNull => attr ++ " eq null"
  | .IsNotNull => attr ++ " ne null"

/-- `FilterOp::next` (src/ui/app.rs:246-258). -/
def FilterOp.next : FilterOp → FilterOp
  | .Equals => .NotEquals
  | .NotEquals => .Contains
  | .Contains => .StartsWith
  | .StartsWith => .EndsWith
  | .EndsWith => .GreaterThan
  | .GreaterThan => .LessThan
  | .LessThan => .IsNull
  | .IsNull => .IsNotNull
  | .IsNotNull => .Equals

/-- `FilterOp::prev` (src/ui/app.rs:260-272). -/
def FilterOp.prev : FilterOp → FilterOp
  | .Equals => .IsNotNull
  | .NotEquals => .Equals
  | .Contains => .NotEquals
  | .StartsWith => .Contains
  | .EndsWith => .StartsWith
  | .GreaterThan => .EndsWith
  | .LessThan => .GreaterThan
  | .IsNull => .LessThan
  | .IsNotNull => .IsNull

/-- `FilterOp::needs_value` (src/ui/app.rs:274-276). -/
def FilterOp.needs_value (op : FilterOp) : Bool :=
  !(op = .IsNull || op = .IsNotNull)

/-- The URL-assembly portion of `App::execute_guided_query`
(src/ui/app.rs:1357-1383): `select` is the list of selected column names,
`filter_parts` the rendered filter fragments, `order_idx` the optional
index into `attrs` (the entity attributes' logical names) with the
descending flag, `top` the optional row cap.  Clause order: select,
filter, orderby, top; bare entity-set name when no clause is emitted. -/
def guidedUrlParts (select filter_parts : List String)
    (order_idx : Option Nat) (attrs : List String) (order_desc : Bool)
    (top : Option Nat) : List String :=
  (if select.isEmpty then [] else ["$select=" ++ joinSep "," select]) ++
  (if filter_parts.isEmpty then []
   else ["$filter=" ++ joinSep " and " filter_parts]) ++
  (match order_idx with
   | some i =>
     match attrs[i]? with
     | some attr =>
       ["$orderby=" ++ attr ++ (if order_desc then " desc" else "")]
     | none => []
   | none => []) ++
  (match top with
   | some top => ["$top=" ++ toString top]
   | none => [])

/-- The final URL assembly at src/ui/app.rs:1379-1383. -/
def guidedBuildUrl (entity_set : String) (select filter_parts : List String)
    (order_idx : Option Nat) (attrs : List String) (order_desc : Bool)
    (top : Option Nat) : String :=
  if (guidedUrlParts select filter_parts order_idx attrs order_desc top).isEmpty
  then entity_set
  else entity_set ++ "?" ++
    joinSep "&" (guidedUrlParts select filter_parts order_idx attrs order_desc top)

/-- The effect of `App::execute_guided_query` (src/ui/app.rs:1332-1401) on
`self.query_result`; `entity_selected` tells whether `selected_entity` is
`Some`, and `exec` is the outcome of `client.execute_query(&url)`.  On
success the result is rebuilt from the payload; on either failure path the
error message is written onto the query result held before the call. -/
def executeGuidedQueryResult (prior : QueryResult) (entity_selected : Bool)
    (exec : Except String Json) : QueryResult :=
  if !entity_selected then
    { prior with error := some "No entity selected" }
  else
    match exec with
    | .ok json => { QueryResult.from_json json with raw_json := some json }
    | .error e => { prior with error := some ("Query failed: " ++ e) }

/-- The effect of `App::load_next_page` (src/ui/app.rs:1404-1428) on
`self.query_result`; `exec` is `client.execute_query` on the continuation
link.  No link: no change.  Success: append the new page's normalized
rows, take over its continuation token, replace the retained payload.
Failure: the error goes to `self.error`, the query result is untouched. -/
def loadNextPage (qr : QueryResult) (exec : String → Except String Json) :
    QueryResult :=
  match qr.next_link with
  | none => qr
  | some next_link =>
    match exec next_link with
    | .ok json =>
      let next_result := QueryResult.from_json json
      { qr with rows := qr.rows ++ next_result.rows,
                next_link := next_result.next_link,
                raw_json := some json }
    | .error _ => qr

/-! ## Helper lemmas -/

theorem string_length_zero {s : String} (h : s.length = 0) : s = "" := by
  cases s with
  | mk data =>
    cases data with
    | nil => rfl
    | cons a l => simp [String.length] at h

theorem string_append_ne_empty_left {s : String} (t : String) (h : s ≠ "") :
    s ++ t ≠ "" := by
  intro heq
  apply h
  have hl := congrArg String.length heq
  rw [String.length_append] at hl
  have h0 : ("" : String).length = 0 := rfl
  exact string_length_zero (by omega)

theorem joinSep_and_ne_empty (l : List String) (hne : l ≠ [])
    (hall : ∀ s ∈ l, s ≠ "") : joinSep " and " l ≠ "" := by
  match l, hne with
  | [s], _ => exact hall s (List.mem_cons_self _ _)
  | s :: s' :: rest, _ =>
    show s ++ " and " ++ joinSep " and " (s' :: rest) ≠ ""
    exact string_append_ne_empty_left _
      (string_append_ne_empty_left _ (hall s (List.mem_cons_self _ _)))

/-! ## Claim theorems -/

/-- C7: `FilterOp::to_odata` renders exactly `attr eq 'value'` for Equals,
`attr ne 'value'` for NotEquals, the function-call forms for Contains,
StartsWith and EndsWith, the unquoted comparisons for GreaterThan and
LessThan, and `attr eq null` / `attr ne null` for IsNull / IsNotNull,
interpolating the value verbatim and ignoring it for the null tests. -/
theorem to_odata_exact_fragments (attr value : String) :
    FilterOp.to_odata .Equals attr value = attr ++ " eq '" ++ value ++ "'" ∧
    FilterOp.to_odata .NotEquals attr value = attr ++ " ne '" ++ value ++ "'" ∧
    FilterOp.to_odata .Contains attr value =
      "contains(" ++ attr ++ ", '" ++ value ++ "')" ∧
    FilterOp.to_odata .StartsWith attr value =
      "startswith(" ++ attr ++ ", '" ++ value ++ "')" ∧
    FilterOp.to_odata .EndsWith attr value =
      "endswith(" ++ attr ++ ", '" ++ value ++ "')" ∧
    FilterOp.to_odata .GreaterThan attr value = attr ++ " gt " ++ value ∧
    FilterOp.to_odata .LessThan attr value = attr ++ " lt " ++ value ∧
    FilterOp.to_odata .IsNull attr value = attr ++ " eq null" ∧
    FilterOp.to_odata .IsNotNull attr value = attr ++ " ne null" :=
  ⟨rfl, rfl, rfl, rfl, rfl, rfl, rfl, rfl, rfl⟩

/-- C10: `next` and `prev` on `FilterOp` are mutually inverse, and each
cycles through the fixed 9-element operator ordering with no terminal
state: nine applications of `next` (or of `prev`) return the original
operator. -/
theorem filterOp_cycle (op : FilterOp) :
    op.next.prev = op ∧ op.prev.next = op ∧
    op.next.next.next.next.next.next.next.next.next = op ∧
    op.prev.prev.prev.prev.prev.prev.prev.prev.prev = op := by
  cases op <;> exact ⟨rfl, rfl, rfl, rfl⟩

/-- C9: `load_next_page` never touches the columns, lookups, count or
error fields of the held query result (in particular on every successful
page load the new page's lookups and count from the normalizer are
discarded, so appended rows never acquire lookup entries). -/
theorem load_next_page_frame (qr : QueryResult)
    (exec : String → Except String Json) :
    (loadNextPage qr exec).columns = qr.columns ∧
    (loadNextPage qr exec).lookups = qr.lookups ∧
    (loadNextPage qr exec).count = qr.count ∧
    (loadNextPage qr exec).error = qr.error := by
  cases h : qr.next_link with
  | none => simp [loadNextPage, h]
  | some link =>
    cases hx : exec link with
    | ok json => simp [loadNextPage, h, hx]
    | error e => simp [loadNextPage, h, hx]

/-- C8: with a continuation link present and a successful fetch,
`load_next_page` appends the normalized new page's rows after the existing
rows, replaces `next_link` by the new page's token (clearing it when the
new page has none) and replaces `raw_json` by the new payload; the row
count never decreases across calls; without a link nothing changes. -/
theorem load_next_page_extends :
    (∀ (qr : QueryResult) (exec : String → Except String Json) link json,
      qr.next_link = some link → exec link = .ok json →
        (loadNextPage qr exec).rows =
          qr.rows ++ (QueryResult.from_json json).rows ∧
        (loadNextPage qr exec).next_link =
          (QueryResult.from_json json).next_link ∧
        (loadNextPage qr exec).raw_json = some json) ∧
    (∀ (qr : QueryResult) (exec : String → Except String Json),
      qr.rows.length ≤ (loadNextPage qr exec).rows.length) ∧
    (∀ (qr : QueryResult) (exec : String → Except String Json),
      qr.next_link = none → loadNextPage qr exec = qr) := by
  refine ⟨?_, ?_, ?_⟩
  · intro qr exec link json hlink hexec
    simp [loadNextPage, hlink, hexec]
  · intro qr exec
    cases h : qr.next_link with
    | none => simp [loadNextPage, h]
    | some link =>
      cases hx : exec link with
      | ok json => simp [loadNextPage, h, hx]
      | error e => simp [loadNextPage, h, hx]
  · intro qr exec hlink
    simp [loadNextPage, hlink]

/-- A one-row first page with a pending continuation link, for
exercising `load_next_page`. -/
def pageOneResult : QueryResult :=
  { QueryResult.empty with rows := [["x"]], next_link := some "L" }

/-- A one-record second page without a continuation link. -/
def pageTwoJson : Json := .obj [("value", .arr [.obj [("a", .num 2)]])]

/-- A fetch collaborator that always returns `pageTwoJson`. -/
def pageFetch : String → Except String Json := fun _ => .ok pageTwoJson

/-- Witness for C8 at a concrete page pair. -/
theorem load_next_page_extends_witness :
    pageOneResult.next_link = some "L" ∧
    pageFetch "L" = .ok pageTwoJson ∧
    ((loadNextPage pageOneResult pageFetch).rows =
        pageOneResult.rows ++ (QueryResult.from_json pageTwoJson).rows ∧
      (loadNextPage pageOneResult pageFetch).next_link =
        (QueryResult.from_json pageTwoJson).next_link ∧
      (loadNextPage pageOneResult pageFetch).raw_json = some pageTwoJson) :=
  ⟨rfl, rfl, load_next_page_extends.1 pageOneResult pageFetch "L" pageTwoJson rfl rfl⟩

/-- A previously displayed query result holding data, as left by a
successful execute. -/
def priorDisplayedResult : QueryResult :=
  { QueryResult.empty with columns := ["a"], rows := [["x"]] }

/-- Counterexample to C1 as stated: a guided execute that fails (the HTTP
collaborator returns an error) writes the error message onto the
previously held query result without clearing it, so the result has
`error = Some` together with non-empty columns and rows. -/
theorem failed_execute_keeps_rows :
    (executeGuidedQueryResult priorDisplayedResult true
        (.error "boom")).error = some "Query failed: boom" ∧
    (executeGuidedQueryResult priorDisplayedResult true
        (.error "boom")).columns = ["a"] ∧
    (executeGuidedQueryResult priorDisplayedResult true
        (.error "boom")).rows = [["x"]] :=
  ⟨rfl, rfl, rfl⟩

/-- C1 (amended): the invariant holds for every `QueryResult::from_json`
output — `error = Some` implies empty columns and rows — while a failed
guided execute (transport error or no entity selected) sets `error` on the
query result held before the call and leaves its columns and rows
unchanged, so after a failure the result carries the prior data alongside
the error. -/
theorem error_results_characterized :
    (∀ j : Json, (QueryResult.from_json j).error.isSome = true →
      (QueryResult.from_json j).columns = [] ∧
      (QueryResult.from_json j).rows = []) ∧
    (∀ (prior : QueryResult) (e : String),
      (executeGuidedQueryResult prior true (.error e)).error =
        some ("Query failed: " ++ e) ∧
      (executeGuidedQueryResult prior true (.error e)).columns = prior.columns ∧
      (executeGuidedQueryResult prior true (.error e)).rows = prior.rows) ∧
    (∀ (prior : QueryResult) (exec : Except String Json),
      (executeGuidedQueryResult prior false exec).error =
        some "No entity selected" ∧
      (executeGuidedQueryResult prior false exec).columns = prior.columns ∧
      (executeGuidedQueryResult prior false exec).rows = prior.rows) := by
  refine ⟨?_, ?_, ?_⟩
  · intro j h
    cases hv : j.get "value" with
    | none => simp [QueryResult.from_json, hv, QueryResult.empty]
    | some v =>
      cases v with
      | arr records =>
        exfalso
        cases hre : records.isEmpty <;>
          simp [QueryResult.from_json, hv, hre, QueryResult.empty] at h
      | null => simp [QueryResult.from_json, hv, QueryResult.empty]
      | bool b => simp [QueryResult.from_json, hv, QueryResult.empty]
      | num n => simp [QueryResult.from_json, hv, QueryResult.empty]
      | str s => simp [QueryResult.from_json, hv, QueryResult.empty]
      | obj kvs => simp [QueryResult.from_json, hv, QueryResult.empty]
  · intro prior e
    exact ⟨rfl, rfl, rfl⟩
  · intro prior exec
    exact ⟨rfl, rfl, rfl⟩

/-- Witness for the amended C1: a payload without a `value` array yields
an error result with empty columns and rows. -/
theorem error_results_characterized_witness :
    (QueryResult.from_json (Json.obj [])).columns = [] ∧
    (QueryResult.from_json (Json.obj [])).rows = [] :=
  error_results_characterized.1 (Json.obj []) rfl

/-- An empty page that nevertheless carries a total-count annotation. -/
def emptyPageWithCount : Json :=
  .obj [("value", .arr []), ("@odata.count", .num 5)]

/-- Counterexample to C2 as stated: on a payload whose `value` array is
empty, `from_json` returns before reading `@odata.count`, so `count` is
`None` even though the annotation carries the number 5. -/
theorem empty_page_count_dropped :
    emptyPageWithCount.get "value" = some (.arr []) ∧
    emptyPageWithCount.get "@odata.count" = some (.num 5) ∧
    (QueryResult.from_json emptyPageWithCount).count = none :=
  ⟨rfl, rfl, rfl⟩

/-- C2 (amended): when the `value` array is non-empty and the top-level
`@odata.count` annotation is a non-negative integer (so the `as_u64`
conversion succeeds), `from_json` returns `count = Some(that number)`;
when the `value` array is empty the early return skips the count
extraction entirely and `count` is `None`. -/
theorem count_extraction :
    (∀ (j : Json) (records : List Json) (n : Int),
      j.get "value" = some (.arr records) → records ≠ [] →
      j.get "@odata.count" = some (.num n) → 0 ≤ n →
      (QueryResult.from_json j).count = some n.toNat) ∧
    (∀ j : Json, j.get "value" = some (.arr []) →
      (QueryResult.from_json j).count = none) := by
  constructor
  · intro j records n hv hne hc hn
    have hre : records.isEmpty = false := by
      cases records with
      | nil => exact absurd rfl hne
      | cons a l => rfl
    simp [QueryResult.from_json, hv, hre, hc, asU64, hn]
  · intro j hv
    simp [QueryResult.from_json, hv, QueryResult.empty]

/-- A one-record page carrying a total-count annotation. -/
def countedPage : Json :=
  .obj [("value", .arr [.obj [("a", .num 1)]]), ("@odata.count", .num 7)]

/-- Witness for the amended C2 at concrete payloads. -/
theorem count_extraction_witness :
    (QueryResult.from_json countedPage).count = some 7 ∧
    (QueryResult.from_json emptyPageWithCount).count = none :=
  ⟨count_extraction.1 countedPage [.obj [("a", .num 1)]] 7 rfl
      (List.cons_ne_nil _ _) rfl (by norm_num),
    count_extraction.2 emptyPageWithCount rfl⟩

/-- C3: `from_json` yields `error = Some` together with empty columns and
rows exactly when the payload has no top-level `value` field holding a
JSON array; and on a payload whose `value` is the empty array it yields no
error, empty columns and rows, and `next_link` equal to the top-level
`@odata.nextLink` string when present, `None` otherwise. -/
theorem from_json_error_iff :
    (∀ j : Json,
      ((QueryResult.from_json j).error.isSome = true ∧
        (QueryResult.from_json j).columns = [] ∧
        (QueryResult.from_json j).rows = []) ↔
      (∀ records : List Json, j.get "value" ≠ some (.arr records))) ∧
    (∀ j : Json, j.get "value" = some (.arr []) →
      (QueryResult.from_json j).error = none ∧
      (QueryResult.from_json j).columns = [] ∧
      (QueryResult.from_json j).rows = [] ∧
      (QueryResult.from_json j).next_link =
        (match j.get "@odata.nextLink" with
         | some (.str link) => some link
         | _ => none)) := by
  constructor
  · intro j
    constructor
    · intro ⟨herr, _, _⟩ records hv
      cases hre : records.isEmpty <;>
        simp [QueryResult.from_json, hv, hre, QueryResult.empty] at herr
    · intro hnoarr
      cases hv : j.get "value" with
      | none => simp [QueryResult.from_json, hv, QueryResult.empty]
      | some v =>
        cases v with
        | arr records => exact absurd hv (hnoarr records)
        | null => simp [QueryResult.from_json, hv, QueryResult.empty]
        | bool b => simp [QueryResult.from_json, hv, QueryResult.empty]
        | num n => simp [QueryResult.from_json, hv, QueryResult.empty]
        | str s => simp [QueryResult.from_json, hv, QueryResult.empty]
        | obj kvs => simp [QueryResult.from_json, hv, QueryResult.empty]
  · intro j hv
    simp [QueryResult.from_json, hv, QueryResult.empty]

/-- An empty page that carries a continuation link. -/
def emptyPageWithLink : Json :=
  .obj [("value", .arr []), ("@odata.nextLink", .str "L")]

/-- Witness for C3 at concrete payloads: a payload without a `value` array
satisfies the error characterization, and `{"value": []}` with a next
link yields an error-free empty result carrying that link. -/
theorem from_json_error_iff_witness :
    ((QueryResult.from_json (Json.str "nope")).error.isSome = true ∧
      (QueryResult.from_json (Json.str "nope")).columns = [] ∧
      (QueryResult.from_json (Json.str "nope")).rows = []) ∧
    ((QueryResult.from_json emptyPageWithLink).error = none ∧
      (QueryResult.from_json emptyPageWithLink).columns = [] ∧
      (QueryResult.from_json emptyPageWithLink).rows = [] ∧
      (QueryResult.from_json emptyPageWithLink).next_link =
        (match emptyPageWithLink.get "@odata.nextLink" with
         | some (.str link) => some link
         | _ => none)) :=
  ⟨(from_json_error_iff.1 (Json.str "nope")).mpr
      (fun records h => by simp [Json.get] at h),
    from_json_error_iff.2 emptyPageWithLink rfl⟩

theorem urlParts_eq_nil_iff (q : QueryDefinition) :
    q.urlParts = [] ↔
      (q.select = [] ∧ q.filter = "" ∧ q.order_by = "" ∧
        q.top = none ∧ q.skip = none) := by
  obtain ⟨en, es, sel, f, ob, t, sk⟩ := q
  simp only [QueryDefinition.urlParts, List.append_eq_nil]
  cases sel <;> cases t <;> cases sk <;> by_cases hf : f = "" <;>
    by_cases hob : ob = "" <;> simp_all

theorem build_url_ne_of_parts (q : QueryDefinition)
    (h : ¬q.urlParts.isEmpty = true) : q.build_url ≠ q.entity_set_name := by
  unfold QueryDefinition.build_url
  rw [if_neg h]
  intro heq
  have hl := congrArg String.length heq
  rw [String.length_append, String.length_append] at hl
  have h1 : ("?" : String).length = 1 := rfl
  omega

theorem mem_of_getElem_some {l : List String} {i : Nat} {a : String}
    (h : l[i]? = some a) : a ∈ l := by
  obtain ⟨hlt, rfl⟩ := List.getElem?_eq_some_iff.mp h
  exact List.getElem_mem hlt

theorem guidedParts_eq_urlParts (sel fparts : List String) (oidx : Option Nat)
    (attrs : List String) (desc : Bool) (top : Option Nat)
    (hf : ∀ s ∈ fparts, s ≠ "") (ha : ∀ a ∈ attrs, a ≠ "") :
    guidedUrlParts sel fparts oidx attrs desc top =
      QueryDefinition.urlParts
        ⟨"", "", sel, joinSep " and " fparts,
          (match oidx with
           | some i =>
             match attrs[i]? with
             | some attr => attr ++ (if desc then " desc" else "")
             | none => ""
           | none => ""),
          top, none⟩ := by
  unfold guidedUrlParts QueryDefinition.urlParts
  cases oidx with
  | none =>
    cases fparts with
    | nil => simp [joinSep]
    | cons s rest =>
      have hne := joinSep_and_ne_empty (s :: rest) (List.cons_ne_nil s rest) hf
      simp [hne]
  | some i =>
    cases hai : attrs[i]? with
    | none =>
      cases fparts with
      | nil => simp [joinSep, hai]
      | cons s rest =>
        have hne := joinSep_and_ne_empty (s :: rest) (List.cons_ne_nil s rest) hf
        simp [hne, hai]
    | some a =>
      have haa : a ++ (if desc then " desc" else "") ≠ "" :=
        string_append_ne_empty_left _ (ha a (mem_of_getElem_some hai))
      cases fparts with
      | nil => simp [joinSep, hai, haa, String.append_assoc]
      | cons s rest =>
        have hne := joinSep_and_ne_empty (s :: rest) (List.cons_ne_nil s rest) hf
        simp [hne, hai, haa, String.append_assoc]

/-- C6: `build_url` emits a clause only for each non-empty/non-default
field, in the fixed order `$select`, `$filter`, `$orderby`, `$top`,
`$skip`: with no clause the result is exactly the entity-set name (and
conversely), otherwise the entity-set name, `?`, and the clauses joined by
`&`; and the guided builder of `execute_guided_query` assembles its URL
with the same clause order and the same empty-case rule — it equals
`build_url` on the query definition carrying its resolved fields (with no
`$skip`), whenever the rendered filter fragments and the attribute names
are non-empty strings. -/
theorem build_url_clause_policy :
    (∀ q : QueryDefinition,
      q.build_url = q.entity_set_name ↔
        (q.select = [] ∧ q.filter = "" ∧ q.order_by = "" ∧
          q.top = none ∧ q.skip = none)) ∧
    (∀ (en es : String) (sel : List String) (f ob : String) (t sk : Nat),
      sel ≠ [] → f ≠ "" → ob ≠ "" →
      QueryDefinition.build_url ⟨en, es, sel, f, ob, some t, some sk⟩ =
        es ++ "?" ++ joinSep "&"
          ["$select=" ++ joinSep "," sel, "$filter=" ++ f,
            "$orderby=" ++ ob, "$top=" ++ toString t,
            "$skip=" ++ toString sk]) ∧
    (∀ (es : String) (sel fparts : List String) (oidx : Option Nat)
        (attrs : List String) (desc : Bool) (top : Option Nat),
      (∀ s ∈ fparts, s ≠ "") → (∀ a ∈ attrs, a ≠ "") →
      guidedBuildUrl es sel fparts oidx attrs desc top =
        QueryDefinition.build_url
          ⟨"", es, sel, joinSep " and " fparts,
            (match oidx with
             | some i =>
               match attrs[i]? with
               | some attr => attr ++ (if desc then " desc" else "")
               | none => ""
             | none => ""),
            top, none⟩) := by
  refine ⟨?_, ?_, ?_⟩
  · intro q
    constructor
    · intro h
      by_cases hp : q.urlParts.isEmpty = true
      · exact (urlParts_eq_nil_iff q).mp (List.isEmpty_iff.mp hp)
      · exact absurd h (build_url_ne_of_parts q hp)
    · intro ⟨h1, h2, h3, h4, h5⟩
      have hnil : q.urlParts = [] :=
        (urlParts_eq_nil_iff q).mpr ⟨h1, h2, h3, h4, h5⟩
      unfold QueryDefinition.build_url
      rw [hnil]
      rfl
  · intro en es sel f ob t sk hsel hf hob
    have hparts : QueryDefinition.urlParts ⟨en, es, sel, f, ob, some t, some sk⟩ =
        ["$select=" ++ joinSep "," sel, "$filter=" ++ f,
          "$orderby=" ++ ob, "$top=" ++ toString t,
          "$skip=" ++ toString sk] := by
      unfold QueryDefinition.urlParts
      cases sel with
      | nil => exact absurd rfl hsel
      | cons a l => simp [hf, hob]
    unfold QueryDefinition.build_url
    rw [hparts]
    rfl
  · intro es sel fparts oidx attrs desc top hf ha
    have hp' : guidedUrlParts sel fparts oidx attrs desc top =
        QueryDefinition.urlParts
          ⟨"", es, sel, joinSep " and " fparts,
            (match oidx with
             | some i =>
               match attrs[i]? with
               | some attr => attr ++ (if desc then " desc" else "")
               | none => ""
             | none => ""),
            top, none⟩ :=
      guidedParts_eq_urlParts sel fparts oidx attrs desc top hf ha
    unfold guidedBuildUrl QueryDefinition.build_url
    rw [hp']

/-- Witness for C6: the full-clause equation and the guided-builder
agreement, each at a concrete input. -/
theorem build_url_clause_policy_witness :
    (QueryDefinition.build_url
        ⟨"account", "accounts", ["a", "b"], "a eq 'x'", "name desc",
          some 10, some 5⟩ =
      "accounts" ++ "?" ++ joinSep "&"
        ["$select=" ++ joinSep "," ["a", "b"], "$filter=" ++ "a eq 'x'",
          "$orderby=" ++ "name desc", "$top=" ++ toString 10,
          "$skip=" ++ toString 5]) ∧
    (guidedBuildUrl "accounts" ["a", "b"] ["a eq 'x'"] (some 0) ["name"]
        true (some 10) =
      QueryDefinition.build_url
        ⟨"", "accounts", ["a", "b"], joinSep " and " ["a eq 'x'"],
          (match (some 0 : Option Nat) with
           | some i =>
             match (["name"] : List String)[i]? with
             | some attr => attr ++ (if true then " desc" else "")
             | none => ""
           | none => ""),
          some 10, none⟩) :=
  ⟨build_url_clause_policy.2.1 "account" "accounts" ["a", "b"] "a eq 'x'"
      "name desc" 10 5 (List.cons_ne_nil _ _) (by decide) (by decide),
    build_url_clause_policy.2.2 "accounts" ["a", "b"] ["a eq 'x'"] (some 0)
      ["name"] true (some 10)
      (by intro s hs; rw [List.mem_singleton] at hs; subst hs; decide)
      (by intro a hs; rw [List.mem_singleton] at hs; subst hs; decide)⟩

theorem from_json_nonempty_fields (j : Json) (records : List Json)
    (hv : j.get "value" = some (.arr records))
    (hre : records.isEmpty = false) :
    (QueryResult.from_json j).columns = discoverColumns records ∧
    (QueryResult.from_json j).rows =
      (processRecords (discoverColumns records) 0 records).1 ∧
    (QueryResult.from_json j).lookups =
      (processRecords (discoverColumns records) 0 records).2 := by
  simp [QueryResult.from_json, hv, hre]

theorem processRecords_rows_getElem :
    ∀ (records : List Json) (cols : List String) (i r : Nat)
      (o : List (String × Json)),
      (∀ rec ∈ records, ∃ ob, rec = Json.obj ob) →
      records[r]? = some (.obj o) →
      (processRecords cols i records).1[r]? =
        some (cols.map (displayValue o)) := by
  intro records
  induction records with
  | nil => intro cols i r o _ hr; simp at hr
  | cons rec rest ih =>
    intro cols i r o hAll hr
    obtain ⟨ob, rfl⟩ := hAll rec (List.mem_cons_self _ _)
    cases r with
    | zero =>
      simp only [List.getElem?_cons_zero, Option.some.injEq] at hr
      cases hr
      simp [processRecords]
    | succ r' =>
      simp only [List.getElem?_cons_succ] at hr
      have := ih cols (i + 1) r' o
        (fun x hx => hAll x (List.mem_cons_of_mem _ hx)) hr
      simpa [processRecords] using this

theorem rowLookups_mem_row :
    ∀ (cols : List String) (o : List (String × Json)) (ri s : Nat)
      (e : (Nat × Nat) × LookupInfo),
      e ∈ rowLookups o ri s cols → e.1.1 = ri := by
  intro cols
  induction cols with
  | nil => intro o ri s e he; simp [rowLookups] at he
  | cons col rest ih =>
    intro o ri s e he
    unfold rowLookups at he
    cases hcl : cellLookup o col (displayValue o col) with
    | none =>
      rw [hcl] at he
      exact ih o ri (s + 1) e he
    | some li =>
      rw [hcl] at he
      rcases List.mem_cons.mp he with heq | hmem
      · rw [heq]
      · exact ih o ri (s + 1) e hmem

theorem rowLookups_find :
    ∀ (cols : List String) (o : List (String × Json)) (ri s k : Nat)
      (col : String) (li : LookupInfo),
      cols[k]? = some col →
      cellLookup o col (displayValue o col) = some li →
      (rowLookups o ri s cols).find? (fun e => e.1 = (ri, s + k)) =
        some ((ri, s + k), li) := by
  intro cols
  induction cols with
  | nil => intro o ri s k col li hk _; simp at hk
  | cons col0 rest ih =>
    intro o ri s k col li hk hcl
    cases k with
    | zero =>
      simp only [List.getElem?_cons_zero, Option.some.injEq] at hk
      subst hk
      unfold rowLookups
      rw [hcl]
      simp [List.find?]
    | succ k' =>
      simp only [List.getElem?_cons_succ] at hk
      have hrec := ih o ri (s + 1) k' col li hk hcl
      have harith : s + 1 + k' = s + (k' + 1) := by omega
      rw [harith] at hrec
      unfold rowLookups
      cases hcl0 : cellLookup o col0 (displayValue o col0) with
      | none => exact hrec
      | some li0 =>
        have hd : decide (((ri, s), li0).1 = (ri, s + (k' + 1))) = false :=
          decide_eq_false (by simp)
        simp only [List.find?, hd]
        exact hrec

theorem processRecords_lookups_find :
    ∀ (records : List Json) (cols : List String) (i r : Nat)
      (o : List (String × Json)) (c : Nat) (col : String) (li : LookupInfo),
      (∀ rec ∈ records, ∃ ob, rec = Json.obj ob) →
      records[r]? = some (.obj o) →
      cols[c]? = some col →
      cellLookup o col (displayValue o col) = some li →
      lookupsFind (processRecords cols i records).2 (i + r, c) = some li := by
  intro records
  induction records with
  | nil => intro cols i r o c col li _ hr _ _; simp at hr
  | cons rec rest ih =>
    intro cols i r o c col li hAll hr hc hcl
    obtain ⟨ob, rfl⟩ := hAll rec (List.mem_cons_self _ _)
    cases r with
    | zero =>
      simp only [List.getElem?_cons_zero, Option.some.injEq] at hr
      cases hr
      have hfind := rowLookups_find cols o i 0 c col li hc hcl
      have harith : (0 : Nat) + c = c := by omega
      rw [harith] at hfind
      unfold processRecords lookupsFind
      simp only [List.find?_append]
      rw [show List.find? (fun e => decide (e.1 = (i + 0, c)))
            (rowLookups o i 0 cols) = some ((i + 0, c), li) from by
          simpa using hfind]
      rfl
    | succ r' =>
      simp only [List.getElem?_cons_succ] at hr
      have hrest := ih cols (i + 1) r' o c col li
        (fun x hx => hAll x (List.mem_cons_of_mem _ hx)) hr hc hcl
      have harith : i + 1 + r' = i + (r' + 1) := by omega
      rw [harith] at hrest
      have hnone : List.find? (fun e => decide (e.1 = (i + (r' + 1), c)))
          (rowLookups ob i 0 cols) = none := by
        rw [List.find?_eq_none]
        intro e he
        have hrow := rowLookups_mem_row cols ob i 0 e he
        simp only [decide_eq_true_eq]
        intro hkey
        have : e.1.1 = i + (r' + 1) := by rw [hkey]
        omega
      unfold processRecords lookupsFind
      simp only [List.find?_append, hnone, Option.none_or]
      exact hrest

/-- C4: for every record object and every discovered column, the cell
produced by `from_json` is the sibling
`{column}@OData.Community.Display.V1.FormattedValue` annotation when that
key holds a JSON string; otherwise the raw column value rendered by type
(null → `"-"`, boolean → `"true"`/`"false"`, number → decimal text,
string → itself, array → `"[N items]"`, object → `"{...}"`); otherwise the
literal `"-"` when the column key is absent from the record. -/
theorem cell_display_precedence (j : Json) (records : List Json) (r c : Nat)
    (o : List (String × Json)) (col : String)
    (hv : j.get "value" = some (.arr records))
    (hAll : ∀ rec ∈ records, ∃ ob, rec = Json.obj ob)
    (hr : records[r]? = some (.obj o))
    (hc : (QueryResult.from_json j).columns[c]? = some col) :
    ((QueryResult.from_json j).rows[r]?.bind (fun row => row[c]?)) =
      some
        (match (Json.obj o).get
            (col ++ "@OData.Community.Display.V1.FormattedValue") with
         | some (.str s) => s
         | _ =>
           match (Json.obj o).get col with
           | some v => format_json_value v
           | _ => "-") := by
  have hne : records.isEmpty = false := by
    cases records with
    | nil => simp at hr
    | cons a l => rfl
  obtain ⟨hcols, hrows, -⟩ := from_json_nonempty_fields j records hv hne
  rw [hcols] at hc
  rw [hrows,
    processRecords_rows_getElem records (discoverColumns records) 0 r o hAll hr]
  simp only [Option.some_bind, List.getElem?_map, hc]
  rfl

/-- A one-record page whose status column carries a formatted-value
annotation. -/
def statusPage : Json :=
  .obj [("value", .arr [.obj
    [("status", .num 1),
      ("status@OData.Community.Display.V1.FormattedValue", .str "Active")]])]

/-- The record object of `statusPage`. -/
def statusRecord : List (String × Json) :=
  [("status", .num 1),
    ("status@OData.Community.Display.V1.FormattedValue", .str "Active")]

/-- Witness for C4: on `statusPage` the `status` cell displays the
formatted value `"Active"`, not the raw `1`. -/
theorem cell_display_precedence_witness :
    ((QueryResult.from_json statusPage).rows[0]?.bind (fun row => row[0]?)) =
      some "Active" :=
  cell_display_precedence statusPage [.obj statusRecord] 0 0 statusRecord
    "status" rfl
    (by intro rec hrec; rw [List.mem_singleton] at hrec; exact ⟨_, hrec⟩)
    rfl (by rfl)

/-- C5: whenever a discovered column of a record carries a sibling
`{column}@Microsoft.Dynamics.CRM.lookuplogicalname` annotation that is a
JSON string and the raw column value is a JSON string, `from_json` stores
a `LookupInfo` at key `(row_index, column_index)` whose id is the raw
value, whose logical name is the annotation value and whose display name
is the resolved display value of that cell. -/
theorem lookup_detection (j : Json) (records : List Json) (r c : Nat)
    (o : List (String × Json)) (col ln id : String)
    (hv : j.get "value" = some (.arr records))
    (hAll : ∀ rec ∈ records, ∃ ob, rec = Json.obj ob)
    (hr : records[r]? = some (.obj o))
    (hc : (QueryResult.from_json j).columns[c]? = some col)
    (hln : (Json.obj o).get
        (col ++ "@Microsoft.Dynamics.CRM.lookuplogicalname") =
      some (.str ln))
    (hid : (Json.obj o).get col = some (.str id)) :
    lookupsFind (QueryResult.from_json j).lookups (r, c) =
      some ⟨id, ln, some (displayValue o col)⟩ := by
  have hne : records.isEmpty = false := by
    cases records with
    | nil => simp at hr
    | cons a l => rfl
  obtain ⟨hcols, -, hlks⟩ := from_json_nonempty_fields j records hv hne
  rw [hcols] at hc
  rw [hlks]
  have hcl : cellLookup o col (displayValue o col) =
      some ⟨id, ln, some (displayValue o col)⟩ := by
    simp [cellLookup, lookupLogicalSuffix, hln, hid]
  have hfind := processRecords_lookups_find records (discoverColumns records)
    0 r o c col _ hAll hr hc hcl
  simpa using hfind

/-- A one-record page whose `_ownerid_value` column carries both a
lookup-logical-name annotation and a formatted-value annotation. -/
def ownerPage : Json :=
  .obj [("value", .arr [.obj
    [("_ownerid_value", .str "guid-1"),
      ("_ownerid_value@Microsoft.Dynamics.CRM.lookuplogicalname",
        .str "systemuser"),
      ("_ownerid_value@OData.Community.Display.V1.FormattedValue",
        .str "Alice")]])]

/-- The record object of `ownerPage`. -/
def ownerRecord : List (String × Json) :=
  [("_ownerid_value", .str "guid-1"),
    ("_ownerid_value@Microsoft.Dynamics.CRM.lookuplogicalname",
      .str "systemuser"),
    ("_ownerid_value@OData.Community.Display.V1.FormattedValue",
      .str "Alice")]

/-- Witness for C5: `_ownerid_value` with a lookup-logical-name annotation
produces a `LookupInfo` at `(0, 0)` with the matching logical name, the
raw GUID as id and the formatted display name. -/
theorem lookup_detection_witness :
    lookupsFind (QueryResult.from_json ownerPage).lookups (0, 0) =
      some ⟨"guid-1", "systemuser", some "Alice"⟩ :=
  lookup_detection ownerPage [.obj ownerRecord] 0 0 ownerRecord
    "_ownerid_value" "systemuser" "guid-1" rfl
    (by intro rec hrec; rw [List.mem_singleton] at hrec; exact ⟨_, hrec⟩)
    rfl (by rfl) rfl rfl
